import Mathlib

/-!
Verification of the blog content platform's storage and route layers.

This file shallow-embeds the data model (`shared/schema.ts`), the two
storage implementations `MemStorage` and `DatabaseStorage`
(`server/storage.ts`), and the relevant HTTP handlers (`server/routes.ts`)
as executable Lean definitions, and proves or refutes the specified
properties of pagination, sorting, tag association, deletion cascade,
subscriber conflict handling, and RSS generation.

Modelling conventions:
- TypeScript `Map` objects are modelled as association lists in insertion
  order (`Array.from(map.values())` is insertion order); `map.set` replaces
  in place when the key is present and appends otherwise; `map.delete`
  removes the unique entry with the key.
- JS timestamps (`Date`, `getTime()`) are `Int` milliseconds since epoch.
- `Array.prototype.sort` is a stable comparison sort (per the ECMAScript
  spec); the comparator `(a, b) => b.publishedAt - a.publishedAt` therefore
  yields the unique stable descending order, modelled by
  `List.insertionSort` with the reflexive relation below (Mathlib's
  insertion sort is stable).
- SQL queries of `DatabaseStorage` are embedded over the same row-list
  state; `ORDER BY published_at DESC` leaves the order of ties unspecified,
  and is determinized here by the same stable sort.
- Fallible SQL writes return `Except String`; the unique and foreign-key
  constraints come from the column declarations in `shared/schema.ts`.
-/

namespace Blog

structure User where
  id : Nat
  username : String
  password : String
  deriving DecidableEq, Repr

structure Post where
  id : Nat
  slug : String
  title : String
  excerpt : String
  content : String
  coverImage : Option String
  publishedAt : Int
  readingTime : String
  authorId : Option Nat
  deriving DecidableEq, Repr

structure Tag where
  id : Nat
  name : String
  slug : String
  deriving DecidableEq, Repr

structure PostTag where
  id : Nat
  postId : Nat
  tagId : Nat
  deriving DecidableEq, Repr

structure Subscriber where
  id : Nat
  email : String
  createdAt : Int
  deriving DecidableEq, Repr

structure InsertUser where
  username : String
  password : String
  deriving DecidableEq, Repr

structure InsertPost where
  slug : String
  title : String
  excerpt : String
  content : String
  coverImage : Option String
  publishedAt : Int
  readingTime : String
  authorId : Option Nat
  deriving DecidableEq, Repr

structure InsertTag where
  name : String
  slug : String
  deriving DecidableEq, Repr

structure InsertPostTag where
  postId : Nat
  tagId : Nat
  deriving DecidableEq, Repr

/-- `Partial<InsertPost>`: every field optional; a `none` field is absent
from the update object and keeps the post's current value. -/
structure PostUpdate where
  slug : Option String := none
  title : Option String := none
  excerpt : Option String := none
  content : Option String := none
  coverImage : Option (Option String) := none
  publishedAt : Option Int := none
  readingTime : Option String := none
  authorId : Option (Option Nat) := none
  deriving DecidableEq, Repr

/-- `{ ...post, ...postUpdates }` (object spread: present fields win). -/
def applyUpdate (p : Post) (u : PostUpdate) : Post :=
  { id := p.id
    slug := u.slug.getD p.slug
    title := u.title.getD p.title
    excerpt := u.excerpt.getD p.excerpt
    content := u.content.getD p.content
    coverImage := u.coverImage.getD p.coverImage
    publishedAt := u.publishedAt.getD p.publishedAt
    readingTime := u.readingTime.getD p.readingTime
    authorId := u.authorId.getD p.authorId }

/-- `{ ...insertPost, id }`. -/
def mkPost (id : Nat) (ip : InsertPost) : Post :=
  { id := id, slug := ip.slug, title := ip.title, excerpt := ip.excerpt
    content := ip.content, coverImage := ip.coverImage
    publishedAt := ip.publishedAt, readingTime := ip.readingTime
    authorId := ip.authorId }

def mkUser (id : Nat) (iu : InsertUser) : User :=
  { id := id, username := iu.username, password := iu.password }

def mkTag (id : Nat) (it : InsertTag) : Tag :=
  { id := id, name := it.name, slug := it.slug }

def mkPostTag (id : Nat) (ipt : InsertPostTag) : PostTag :=
  { id := id, postId := ipt.postId, tagId := ipt.tagId }

/-- The state of one storage instance: the five entity tables/maps in
insertion order plus the id counters / serial sequences. -/
structure StoreState where
  users : List User
  posts : List Post
  tags : List Tag
  postTags : List PostTag
  subscribers : List Subscriber
  currentUserId : Nat
  currentPostId : Nat
  currentTagId : Nat
  currentPostTagId : Nat
  currentSubscriberId : Nat
  deriving DecidableEq, Repr

/-- `map.get(k)` on a `Map` whose entries are keyed by `key`. -/
def mapGet (key : α → Nat) (k : Nat) (l : List α) : Option α :=
  l.find? (fun x => key x == k)

/-- `map.set(key v, v)`: replace in place if the key is present, else
append (JS `Map` preserves insertion order and updates in place). -/
def mapSet (key : α → Nat) (v : α) : List α → List α
  | [] => [v]
  | x :: xs => if key x == key v then v :: xs else x :: mapSet key v xs

/-- `map.delete(k)`: remove the entry with key `k` (unique in a `Map`),
returning the remaining entries and whether an entry was removed. -/
def mapDelete (key : α → Nat) (k : Nat) : List α → List α × Bool
  | [] => ([], false)
  | x :: xs =>
    if key x == k then (xs, true)
    else
      let r := mapDelete key k xs
      (x :: r.1, r.2)

/-- The order used by the post-list comparator
`(a, b) => new Date(b.publishedAt).getTime() - new Date(a.publishedAt).getTime()`:
`a` may precede `b` iff `b.publishedAt <= a.publishedAt` (descending). -/
def postDescRel : Post → Post → Prop := fun a b => b.publishedAt ≤ a.publishedAt

instance : DecidableRel postDescRel := fun a b =>
  inferInstanceAs (Decidable (b.publishedAt ≤ a.publishedAt))

instance : IsTotal Post postDescRel :=
  ⟨fun a b => le_total b.publishedAt a.publishedAt⟩

instance : IsTrans Post postDescRel :=
  ⟨fun _ _ _ h1 h2 => le_trans h2 h1⟩

/-- Stable sort of posts by `publishedAt` descending (the unique result of
JS `Array.prototype.sort` with the comparator above). -/
def sortPostsDesc (l : List Post) : List Post :=
  l.insertionSort postDescRel

namespace MemStorage

def getUser (s : StoreState) (id : Nat) : Option User :=
  mapGet User.id id s.users

def getUserByUsername (s : StoreState) (username : String) : Option User :=
  s.users.find? (fun u => u.username == username)

def createUser (s : StoreState) (iu : InsertUser) : User × StoreState :=
  let id := s.currentUserId
  let u := mkUser id iu
  (u, { s with users := mapSet User.id u s.users, currentUserId := id + 1 })

def getAllPosts (s : StoreState) : List Post :=
  sortPostsDesc s.posts

def getPostById (s : StoreState) (id : Nat) : Option Post :=
  mapGet Post.id id s.posts

def getPostBySlug (s : StoreState) (slug : String) : Option Post :=
  s.posts.find? (fun p => p.slug == slug)

def createPost (s : StoreState) (ip : InsertPost) : Post × StoreState :=
  let id := s.currentPostId
  let p := mkPost id ip
  (p, { s with posts := mapSet Post.id p s.posts, currentPostId := id + 1 })

def updatePost (s : StoreState) (id : Nat) (u : PostUpdate) :
    Option Post × StoreState :=
  match mapGet Post.id id s.posts with
  | none => (none, s)
  | some p =>
    let p2 := applyUpdate p u
    (some p2, { s with posts := mapSet Post.id p2 s.posts })

/-- `deletePost` of the in-memory implementation: only
`this.posts.delete(id)`; the `postTags` map is untouched. -/
def deletePost (s : StoreState) (id : Nat) : Bool × StoreState :=
  let r := mapDelete Post.id id s.posts
  (r.2, { s with posts := r.1 })

def getFeaturedPost (s : StoreState) : Option Post :=
  if (getAllPosts s).length > 0 then (getAllPosts s)[0]? else none

structure Paginated where
  posts : List Post
  total : Nat
  deriving DecidableEq, Repr

/-- `allPosts.slice((page-1)*limit, page*limit)` together with the
unpaginated count (`page`, `limit` as used by the route are >= 1). -/
def getPaginatedPosts (s : StoreState) (page limit : Nat) : Paginated :=
  let allPosts := getAllPosts s
  let startIndex := (page - 1) * limit
  let endIndex := page * limit
  { posts := (allPosts.drop startIndex).take (endIndex - startIndex)
    total := allPosts.length }

def getAllTags (s : StoreState) : List Tag :=
  s.tags

def getTagById (s : StoreState) (id : Nat) : Option Tag :=
  mapGet Tag.id id s.tags

def getTagBySlug (s : StoreState) (slug : String) : Option Tag :=
  s.tags.find? (fun t => t.slug == slug)

def createTag (s : StoreState) (it : InsertTag) : Tag × StoreState :=
  let id := s.currentTagId
  let t := mkTag id it
  (t, { s with tags := mapSet Tag.id t s.tags, currentTagId := id + 1 })

/-- Linear scan over the join map, then filter of the posts map, then the
descending sort. -/
def getPostsByTagId (s : StoreState) (tagId : Nat) : List Post :=
  sortPostsDesc (s.posts.filter (fun p =>
    ((s.postTags.filter (fun pt => pt.tagId == tagId)).map
      (fun pt => pt.postId)).contains p.id))

def getPostsByTagSlug (s : StoreState) (tagSlug : String) : List Post :=
  match getTagBySlug s tagSlug with
  | none => []
  | some t => getPostsByTagId s t.id

/-- Filter of the join map by post id, then filter of the tags map by
membership of the id in the collected tag ids (so each tag appears at most
once even when the join map holds duplicate associations). -/
def getTagsByPostId (s : StoreState) (postId : Nat) : List Tag :=
  s.tags.filter (fun t =>
    ((s.postTags.filter (fun pt => pt.postId == postId)).map
      (fun pt => pt.tagId)).contains t.id)

def addTagToPost (s : StoreState) (ipt : InsertPostTag) : PostTag × StoreState :=
  let id := s.currentPostTagId
  let pt := mkPostTag id ipt
  (pt, { s with postTags := mapSet PostTag.id pt s.postTags,
                currentPostTagId := id + 1 })

/-- Find the first join entry with the pair, then delete it by its id;
other entries with the same (postId, tagId) pair survive. -/
def removeTagFromPost (s : StoreState) (postId tagId : Nat) : Bool × StoreState :=
  match s.postTags.find? (fun pt => pt.postId == postId && pt.tagId == tagId) with
  | none => (false, s)
  | some entry =>
    let r := mapDelete PostTag.id entry.id s.postTags
    (r.2, { s with postTags := r.1 })

/-- `createSubscriber` never checks for duplicates; `createdAt` is the
current wall-clock time, passed in as `now`. -/
def createSubscriber (s : StoreState) (email : String) (now : Int) :
    Subscriber × StoreState :=
  let id := s.currentSubscriberId
  let sub : Subscriber := { id := id, email := email, createdAt := now }
  (sub, { s with subscribers := mapSet Subscriber.id sub s.subscribers,
                 currentSubscriberId := id + 1 })

def getSubscriberByEmail (s : StoreState) (email : String) : Option Subscriber :=
  s.subscribers.find? (fun sub => sub.email == email)

def getAllSubscribers (s : StoreState) : List Subscriber :=
  s.subscribers

end MemStorage

namespace DatabaseStorage

/-!
The persistent implementation, embedded over the same row-list state.
Reads are total; writes return `Except String` because an `INSERT`/`UPDATE`
violating a `unique()` or `references()` declaration of `shared/schema.ts`
raises a database error.
-/

def getUser (s : StoreState) (id : Nat) : Option User :=
  s.users.find? (fun u => u.id == id)

def getUserByUsername (s : StoreState) (username : String) : Option User :=
  s.users.find? (fun u => u.username == username)

/-- `users.username` is declared `unique()`. -/
def createUser (s : StoreState) (iu : InsertUser) :
    Except String (User × StoreState) :=
  if s.users.any (fun u => u.username == iu.username) then
    .error "duplicate key value violates unique constraint users_username_unique"
  else
    let u := mkUser s.currentUserId iu
    .ok (u, { s with users := s.users ++ [u], currentUserId := s.currentUserId + 1 })

def getAllPosts (s : StoreState) : List Post :=
  sortPostsDesc s.posts

def getPostById (s : StoreState) (id : Nat) : Option Post :=
  s.posts.find? (fun p => p.id == id)

def getPostBySlug (s : StoreState) (slug : String) : Option Post :=
  s.posts.find? (fun p => p.slug == slug)

/-- The nullable `posts.author_id` column `references(() => users.id)`:
NULL passes, a non-null value must reference an existing user. -/
def authorOk (s : StoreState) : Option Nat → Bool
  | none => true
  | some a => s.users.any (fun u => u.id == a)

/-- `posts.slug` is declared `unique()`; `posts.author_id` carries a
foreign key to `users.id`. -/
def createPost (s : StoreState) (ip : InsertPost) :
    Except String (Post × StoreState) :=
  if s.posts.any (fun p => p.slug == ip.slug) then
    .error "duplicate key value violates unique constraint posts_slug_unique"
  else if authorOk s ip.authorId then
    let p := mkPost s.currentPostId ip
    .ok (p, { s with posts := s.posts ++ [p], currentPostId := s.currentPostId + 1 })
  else
    .error "insert violates foreign key constraint posts_author_id_fkey"

/-- `UPDATE posts SET ... WHERE id = ... RETURNING *`; fails when the new
slug collides with a different row's slug, or when the update changes
author_id to a dangling reference (the foreign key is re-checked exactly
when the referencing value changes). -/
def updatePost (s : StoreState) (id : Nat) (u : PostUpdate) :
    Except String (Option Post × StoreState) :=
  match s.posts.find? (fun p => p.id == id) with
  | none => .ok (none, s)
  | some p =>
    let p2 := applyUpdate p u
    if s.posts.any (fun q => q.id != id && q.slug == p2.slug) then
      .error "duplicate key value violates unique constraint posts_slug_unique"
    else if p2.authorId == p.authorId || authorOk s p2.authorId then
      .ok (some p2,
        { s with posts := s.posts.map (fun q => if q.id == id then p2 else q) })
    else
      .error "update violates foreign key constraint posts_author_id_fkey"

/-- Transactionally ordered: first `DELETE FROM post_tags WHERE post_id = id`,
then `DELETE FROM posts WHERE id = id RETURNING *`. -/
def deletePost (s : StoreState) (id : Nat) : Bool × StoreState :=
  let s1 := { s with postTags := s.postTags.filter (fun pt => pt.postId != id) }
  (s1.posts.any (fun p => p.id == id),
   { s1 with posts := s1.posts.filter (fun p => p.id != id) })

/-- `ORDER BY published_at DESC LIMIT 1`. -/
def getFeaturedPost (s : StoreState) : Option Post :=
  ((sortPostsDesc s.posts).take 1)[0]?

/-- `COUNT(*)` plus `ORDER BY published_at DESC LIMIT limit OFFSET (page-1)*limit`. -/
def getPaginatedPosts (s : StoreState) (page limit : Nat) : MemStorage.Paginated :=
  { posts := ((sortPostsDesc s.posts).drop ((page - 1) * limit)).take limit
    total := s.posts.length }

def getAllTags (s : StoreState) : List Tag :=
  s.tags

def getTagById (s : StoreState) (id : Nat) : Option Tag :=
  s.tags.find? (fun t => t.id == id)

def getTagBySlug (s : StoreState) (slug : String) : Option Tag :=
  s.tags.find? (fun t => t.slug == slug)

/-- `tags.name` and `tags.slug` are each declared `unique()`. -/
def createTag (s : StoreState) (it : InsertTag) :
    Except String (Tag × StoreState) :=
  if s.tags.any (fun t => t.name == it.name || t.slug == it.slug) then
    .error "duplicate key value violates unique constraint on tags"
  else
    let t := mkTag s.currentTagId it
    .ok (t, { s with tags := s.tags ++ [t], currentTagId := s.currentTagId + 1 })

/-- `posts INNER JOIN post_tags ON posts.id = post_tags.post_id WHERE
post_tags.tag_id = tagId ORDER BY published_at DESC`: one output row per
matching join row. -/
def getPostsByTagId (s : StoreState) (tagId : Nat) : List Post :=
  sortPostsDesc
    ((s.postTags.filter (fun pt => pt.tagId == tagId)).filterMap
      (fun pt => s.posts.find? (fun p => p.id == pt.postId)))

def getPostsByTagSlug (s : StoreState) (tagSlug : String) : List Post :=
  match getTagBySlug s tagSlug with
  | none => []
  | some t => getPostsByTagId s t.id

/-- `tags INNER JOIN post_tags ON tags.id = post_tags.tag_id WHERE
post_tags.post_id = postId`: one output row per matching join row. -/
def getTagsByPostId (s : StoreState) (postId : Nat) : List Tag :=
  (s.postTags.filter (fun pt => pt.postId == postId)).filterMap
    (fun pt => s.tags.find? (fun t => t.id == pt.tagId))

/-- `post_tags.post_id` and `post_tags.tag_id` carry `references()`
foreign-key constraints; the pair itself has no uniqueness constraint. -/
def addTagToPost (s : StoreState) (ipt : InsertPostTag) :
    Except String (PostTag × StoreState) :=
  if s.posts.any (fun p => p.id == ipt.postId) then
    if s.tags.any (fun t => t.id == ipt.tagId) then
      let pt := mkPostTag s.currentPostTagId ipt
      .ok (pt, { s with postTags := s.postTags ++ [pt],
                        currentPostTagId := s.currentPostTagId + 1 })
    else .error "violates foreign key constraint post_tags_tag_id_fkey"
  else .error "violates foreign key constraint post_tags_post_id_fkey"

/-- `DELETE FROM post_tags WHERE post_id = ... AND tag_id = ... RETURNING *`:
removes every row with the pair. -/
def removeTagFromPost (s : StoreState) (postId tagId : Nat) : Bool × StoreState :=
  (s.postTags.any (fun pt => pt.postId == postId && pt.tagId == tagId),
   { s with postTags :=
      s.postTags.filter (fun pt => !(pt.postId == postId && pt.tagId == tagId)) })

/-- `subscribers.email` is declared `unique()`; `created_at` defaults to
`now()`, passed in as `now`. -/
def createSubscriber (s : StoreState) (email : String) (now : Int) :
    Except String (Subscriber × StoreState) :=
  if s.subscribers.any (fun sub => sub.email == email) then
    .error "duplicate key value violates unique constraint subscribers_email_unique"
  else
    let sub : Subscriber := { id := s.currentSubscriberId, email := email, createdAt := now }
    .ok (sub, { s with subscribers := s.subscribers ++ [sub],
                       currentSubscriberId := s.currentSubscriberId + 1 })

def getSubscriberByEmail (s : StoreState) (email : String) : Option Subscriber :=
  s.subscribers.find? (fun sub => sub.email == email)

def getAllSubscribers (s : StoreState) : List Subscriber :=
  s.subscribers

end DatabaseStorage

/-!
### `Date.prototype.toUTCString`

`new Date(ms).toUTCString()` formats the timestamp as an RFC-1123 date,
e.g. `Thu, 15 Jun 2023 00:00:00 GMT`. The civil-date computation is the
standard days-to-civil algorithm; the embedding is faithful for the years
0..9999 (all representable JS dates of interest; the seeded posts are all
in 2023).
-/

def monthNames : List String :=
  ["Jan", "Feb", "Mar", "Apr", "May", "Jun", "Jul", "Aug", "Sep", "Oct", "Nov", "Dec"]

def weekdayNames : List String :=
  ["Sun", "Mon", "Tue", "Wed", "Thu", "Fri", "Sat"]

/-- Two-digit zero-padded decimal rendering (of a value below 100). -/
def pad2 (n : Nat) : String :=
  String.mk [Nat.digitChar (n / 10 % 10), Nat.digitChar (n % 10)]

/-- Four-digit zero-padded decimal rendering (of a value below 10000). -/
def pad4 (n : Nat) : String :=
  String.mk [Nat.digitChar (n / 1000 % 10), Nat.digitChar (n / 100 % 10),
             Nat.digitChar (n / 10 % 10), Nat.digitChar (n % 10)]

/-- Days since 1970-01-01 to (year, month 1..12, day 1..31), proleptic
Gregorian. -/
def civilFromDays (z : Int) : Int × Nat × Nat :=
  let z2 := z + 719468
  let era := z2.fdiv 146097
  let doe := (z2 - era * 146097).toNat
  let yoe := (doe - doe / 1460 + doe / 36524 - doe / 146096) / 365
  let doy := doe - (365 * yoe + yoe / 4 - yoe / 100)
  let mp := (5 * doy + 2) / 153
  let d := doy - (153 * mp + 2) / 5 + 1
  let m := if mp < 10 then mp + 3 else mp - 9
  (era * 400 + yoe + (if m ≤ 2 then 1 else 0), m, d)

def jsToUTCString (t : Int) : String :=
  let days := t.fdiv 86400000
  let ms := (t - days * 86400000).toNat
  let hh := ms / 3600000
  let mi := ms / 60000 % 60
  let ss := ms / 1000 % 60
  let wd := ((days + 4).emod 7).toNat
  let c := civilFromDays days
  weekdayNames.getD wd "Thu" ++ ", " ++ pad2 c.2.2 ++ " "
    ++ monthNames.getD (c.2.1 - 1) "Jan" ++ " " ++ pad4 c.1.toNat ++ " "
    ++ pad2 hh ++ ":" ++ pad2 mi ++ ":" ++ pad2 ss ++ " GMT"

/-!
### Route layer (`server/routes.ts`)
-/

/-- A post with its tags merged in, as the list endpoints respond. -/
structure PostWithTags where
  post : Post
  tags : List Tag
  deriving DecidableEq, Repr

def withTags (s : StoreState) (p : Post) : PostWithTags :=
  { post := p, tags := MemStorage.getTagsByPostId s p.id }

structure Pagination where
  total : Nat
  page : Nat
  limit : Nat
  totalPages : Nat
  deriving DecidableEq, Repr

structure PostsResponse where
  posts : List PostWithTags
  pagination : Pagination
  deriving DecidableEq, Repr

/-- `Math.ceil(total / limit)` on JS numbers, modelled over ℚ (exact for
the integral ranges involved). -/
def jsCeilDiv (total limit : Nat) : Nat :=
  ⌈(total : ℚ) / (limit : ℚ)⌉₊

/-- The GET /api/posts handler body (after the `parseInt(..) || default`
coercion has produced `page` and `limit`). -/
def apiPosts (s : StoreState) (page limit : Nat) : PostsResponse :=
  let result := MemStorage.getPaginatedPosts s page limit
  { posts := result.posts.map (withTags s)
    pagination :=
      { total := result.total, page := page, limit := limit
        totalPages := jsCeilDiv result.total limit } }

/-- The GET /api/posts/featured handler: 404 when there is no post,
otherwise 200 with the featured post and its tags. -/
def apiFeaturedPost (s : StoreState) : Nat × Option PostWithTags :=
  match MemStorage.getFeaturedPost s with
  | none => (404, none)
  | some p => (200, some (withTags s p))

/-- The POST /api/subscribe handler (for a body that passed validation):
status, message, and the resulting store state. -/
def apiSubscribe (s : StoreState) (email : String) (now : Int) :
    Nat × String × StoreState :=
  match MemStorage.getSubscriberByEmail s email with
  | some _ => (400, "Email already subscribed", s)
  | none =>
    let r := MemStorage.createSubscriber s email now
    (201, "Subscription successful", r.2)

/-- The GET /api/tags/:slug/posts handler: always 200 with the
(possibly empty) list of posts, each annotated with its tags. -/
def apiPostsByTagSlug (s : StoreState) (slug : String) : Nat × List PostWithTags :=
  (200, (MemStorage.getPostsByTagSlug s slug).map (withTags s))

/-!
### RSS feed generation (GET /rss.xml)
-/

/-- The per-post `<item>` block exactly as interpolated by the handler. -/
def rssItem (baseUrl : String) (post : Post) : String :=
  "\n    <item>\n      <title>" ++ post.title
    ++ "</title>\n      <link>" ++ baseUrl ++ "/posts/" ++ post.slug
    ++ "</link>\n      <guid>" ++ baseUrl ++ "/posts/" ++ post.slug
    ++ "</guid>\n      <pubDate>" ++ jsToUTCString post.publishedAt
    ++ "</pubDate>\n      <description><![CDATA[" ++ post.excerpt
    ++ "]]></description>\n    </item>"

def rssHeader (baseUrl : String) (now : Int) : String :=
  "<?xml version=\"1.0\" encoding=\"UTF-8\"?>\n<rss version=\"2.0\" xmlns:atom=\"http://www.w3.org/2005/Atom\">\n  <channel>\n    <title>DevBlog - Next.js and MDX Blog</title>\n    <link>" ++ baseUrl
    ++ "</link>\n    <description>A modern blog platform with powerful content management, dark mode, and advanced features.</description>\n    <language>en-us</language>\n    <lastBuildDate>"
    ++ jsToUTCString now
    ++ "</lastBuildDate>\n    <atom:link href=\"" ++ baseUrl
    ++ "/rss.xml\" rel=\"self\" type=\"application/rss+xml\" />\n"

def rssFooter : String :=
  "\n  </channel>\n</rss>"

/-- The GET /rss.xml handler: header, one appended item per post of
`getAllPosts` (the tag fan-out is performed but tags are not rendered),
then the footer. -/
def rssXml (s : StoreState) (baseUrl : String) (now : Int) : String :=
  (MemStorage.getAllPosts s).foldl (fun acc p => acc ++ rssItem baseUrl p)
    (rssHeader baseUrl now) ++ rssFooter

/-- The five data fields the spec requires of an RSS item. -/
structure RssItemFields where
  title : String
  link : String
  guid : String
  pubDate : String
  description : String
  deriving DecidableEq, Repr

/-- Spec-side item description, following the spec's words: title, link =
base-url + /posts/ + slug, guid = same as link, pubDate = RFC-1123
formatted publishedAt, description = CDATA-wrapped excerpt. Used to compare
the handler's rendered item against the specified shape. -/
def specRssItemFields (baseUrl : String) (p : Post) : RssItemFields :=
  { title := p.title
    link := baseUrl ++ "/posts/" ++ p.slug
    guid := baseUrl ++ "/posts/" ++ p.slug
    pubDate := jsToUTCString p.publishedAt
    description := "<![CDATA[" ++ p.excerpt ++ "]]>" }

/-- Rendering of the five fields into an `<item>` element. -/
def renderRssItem (f : RssItemFields) : String :=
  "\n    <item>\n      <title>" ++ f.title
    ++ "</title>\n      <link>" ++ f.link
    ++ "</link>\n      <guid>" ++ f.guid
    ++ "</guid>\n      <pubDate>" ++ f.pubDate
    ++ "</pubDate>\n      <description>" ++ f.description
    ++ "</description>\n    </item>"

/-- A string of the RFC-1123 fixed-width date shape
`Www, dd Mmm yyyy hh:mm:ss GMT`. -/
def IsRFC1123 (s : String) : Prop :=
  ∃ (dow mon : String) (d1 d2 y1 y2 y3 y4 h1 h2 mi1 mi2 s1 s2 : Char),
    s = dow ++ ", " ++ String.mk [d1, d2] ++ " " ++ mon ++ " "
          ++ String.mk [y1, y2, y3, y4] ++ " " ++ String.mk [h1, h2] ++ ":"
          ++ String.mk [mi1, mi2] ++ ":" ++ String.mk [s1, s2] ++ " GMT"
    ∧ dow ∈ weekdayNames ∧ mon ∈ monthNames
    ∧ ∀ c ∈ [d1, d2, y1, y2, y3, y4, h1, h2, mi1, mi2, s1, s2], c.isDigit = true

/-!
### Well-formedness invariants of the store

A JS `Map` cannot hold two entries with one key, and each id counter
strictly exceeds every id in its map (both hold by construction from the
empty store). These are data-structure invariants, assumed where a claim
needs them.
-/

def WF (s : StoreState) : Prop :=
  (s.users.map User.id).Nodup ∧ (s.posts.map Post.id).Nodup
    ∧ (s.tags.map Tag.id).Nodup ∧ (s.postTags.map PostTag.id).Nodup
    ∧ (s.subscribers.map Subscriber.id).Nodup
    ∧ (∀ u ∈ s.users, u.id < s.currentUserId)
    ∧ (∀ p ∈ s.posts, p.id < s.currentPostId)
    ∧ (∀ t ∈ s.tags, t.id < s.currentTagId)
    ∧ (∀ pt ∈ s.postTags, pt.id < s.currentPostTagId)
    ∧ (∀ b ∈ s.subscribers, b.id < s.currentSubscriberId)

instance (s : StoreState) : Decidable (WF s) := by
  unfold WF; infer_instance

/-- No two join rows associate the same (postId, tagId) pair. The schema
does not enforce this; it is an extra hypothesis where needed. -/
def PairsNodup (s : StoreState) : Prop :=
  (s.postTags.map (fun pt => (pt.postId, pt.tagId))).Nodup

instance (s : StoreState) : Decidable (PairsNodup s) := by
  unfold PairsNodup; infer_instance

/-- Referential integrity of the join table. -/
def RefInt (s : StoreState) : Prop :=
  ∀ pt ∈ s.postTags, (∃ p ∈ s.posts, p.id = pt.postId) ∧ ∃ t ∈ s.tags, t.id = pt.tagId

instance (s : StoreState) : Decidable (RefInt s) := by
  unfold RefInt; infer_instance

/-!
### Shared helper lemmas
-/

theorem sorted_sortPostsDesc (l : List Post) :
    (sortPostsDesc l).Pairwise (fun a b => b.publishedAt ≤ a.publishedAt) :=
  List.sorted_insertionSort postDescRel l

theorem perm_sortPostsDesc (l : List Post) : (sortPostsDesc l).Perm l :=
  List.perm_insertionSort postDescRel l

theorem length_sortPostsDesc (l : List Post) : (sortPostsDesc l).length = l.length :=
  List.length_insertionSort postDescRel l

theorem mem_sortPostsDesc {l : List Post} {p : Post} :
    p ∈ sortPostsDesc l ↔ p ∈ l :=
  (perm_sortPostsDesc l).mem_iff

theorem count_filter_of_true [DecidableEq α] (f : α → Bool) (l : List α) (a : α)
    (h : f a = true) : (l.filter f).count a = l.count a :=
  List.count_filter h

theorem mapSet_append (key : α → Nat) (v : α) (l : List α)
    (h : ∀ x ∈ l, key x ≠ key v) : mapSet key v l = l ++ [v] := by
  induction l with
  | nil => rfl
  | cons x xs ih =>
    have hx : ¬(key x == key v) = true := by
      simpa using h x (List.mem_cons_self _ _)
    simp only [mapSet, if_neg hx, List.cons_append, List.cons.injEq, true_and]
    exact ih fun y hy => h y (List.mem_cons_of_mem _ hy)

theorem mapDelete_append (key : α → Nat) (v : α) (l : List α)
    (h : ∀ x ∈ l, key x ≠ key v) : mapDelete key (key v) (l ++ [v]) = (l, true) := by
  induction l with
  | nil => simp [mapDelete]
  | cons x xs ih =>
    have hx : ¬(key x == key v) = true := by
      simpa using h x (List.mem_cons_self _ _)
    simp only [List.cons_append, mapDelete, if_neg hx, List.append_eq,
      ih fun y hy => h y (List.mem_cons_of_mem _ hy)]

theorem mapDelete_of_no_match (key : α → Nat) (k : Nat) (l : List α)
    (h : ∀ x ∈ l, key x ≠ k) : mapDelete key k l = (l, false) := by
  induction l with
  | nil => rfl
  | cons x xs ih =>
    have hx : ¬(key x == k) = true := by
      simpa using h x (List.mem_cons_self _ _)
    simp only [mapDelete, if_neg hx, ih fun y hy => h y (List.mem_cons_of_mem _ hy)]

/-- When keys are unique and `e` is the only entry matched by `sel`,
`map.delete(e.key)` equals filtering out the `sel` matches. -/
theorem mapDelete_eq_filter (key : α → Nat) (sel : α → Bool) (l : List α) (e : α)
    (he : e ∈ l) (hsel : sel e = true)
    (hid : (l.map key).Nodup)
    (huniq : ∀ x ∈ l, sel x = true → x = e) :
    mapDelete key (key e) l = (l.filter (fun x => !sel x), true) := by
  induction l with
  | nil => cases he
  | cons x xs ih =>
    by_cases hxe : x = e
    · subst hxe
      have hxs : x ∉ xs := by
        intro hmem
        exact (List.nodup_cons.mp hid).1 (List.mem_map_of_mem key hmem)
      have hfix : xs.filter (fun y => !sel y) = xs := by
        rw [List.filter_eq_self]
        intro y hy
        simp only [Bool.not_eq_true']
        by_contra hsy
        rw [Bool.not_eq_false] at hsy
        exact hxs ((huniq y (List.mem_cons_of_mem _ hy) hsy) ▸ hy)
      simp only [mapDelete, beq_self_eq_true, if_pos, List.filter_cons, hsel,
        Bool.not_true, hfix]
      simp
    · have hkne : key x ≠ key e := by
        intro hk
        rcases List.mem_cons.mp he with rfl | hein
        · exact hxe rfl
        · exact (List.nodup_cons.mp hid).1 (hk ▸ List.mem_map_of_mem key hein)
      have hein : e ∈ xs := by
        rcases List.mem_cons.mp he with rfl | hein
        · exact absurd rfl hxe
        · exact hein
      have hselx : sel x = false := by
        by_contra hsx
        rw [Bool.not_eq_false] at hsx
        exact hxe (huniq x (List.mem_cons_self _ _) hsx)
      have := ih hein (List.nodup_cons.mp hid).2
        fun y hy hsy => huniq y (List.mem_cons_of_mem _ hy) hsy
      simp only [mapDelete, beq_iff_eq, if_neg hkne, this, List.filter_cons, hselx,
        Bool.not_false]
      simp

/-- When keys are unique and the key of `v` is already present via `e`,
`map.set` (replace-in-place) equals a pointwise replacement. -/
theorem mapSet_eq_map_replace (key : α → Nat) (v : α) (l : List α) (e : α)
    (he : e ∈ l) (hkey : key e = key v) (hnodup : (l.map key).Nodup) :
    mapSet key v l = l.map (fun x => if key x == key v then v else x) := by
  induction l with
  | nil => cases he
  | cons x xs ih =>
    by_cases hx : key x = key v
    · have hxs : ∀ y ∈ xs, key y ≠ key v := by
        intro y hy hk
        exact (List.nodup_cons.mp hnodup).1 (hx ▸ hk ▸ List.mem_map_of_mem key hy)
      have hfix : xs.map (fun y => if key y == key v then v else y) = xs := by
        have h1 : xs.map (fun y => if key y == key v then v else y) = xs.map id :=
          List.map_congr_left fun y hy => by
            rw [if_neg (by simpa using hxs y hy)]
            rfl
        rw [h1, List.map_id]
      have hb : (key x == key v) = true := by simpa using hx
      simp only [mapSet, List.map_cons, hb, if_true, hfix]
    · have hb : ¬(key x == key v) = true := by simpa using hx
      have hein : e ∈ xs := by
        rcases List.mem_cons.mp he with rfl | h2
        · exact absurd hkey hx
        · exact h2
      have hb2 : (key x == key v) = false := by simpa using hx
      simp only [mapSet, List.map_cons, hb2, Bool.false_eq_true, if_false,
        List.cons.injEq, true_and]
      exact ih hein (List.nodup_cons.mp hnodup).2

theorem find?_eq_some_of_key (items : List β) (keyf : β → Nat) (b : β) (k : Nat)
    (hb : b ∈ items) (hk : keyf b = k)
    (hnodup : (items.map keyf).Nodup) :
    items.find? (fun it => keyf it == k) = some b := by
  induction items with
  | nil => cases hb
  | cons x xs ih =>
    by_cases hx : keyf x = k
    · have hxb : x = b := by
        rcases List.mem_cons.mp hb with rfl | hbin
        · rfl
        · exfalso
          apply (List.nodup_cons.mp hnodup).1
          rw [show keyf x = keyf b from hx.trans hk.symm]
          exact List.mem_map_of_mem keyf hbin
      rw [List.find?_cons_of_pos _ (by simpa using hx), hxb]
    · rw [List.find?_cons_of_neg _ (by simpa using hx)]
      refine ih ?_ (List.nodup_cons.mp hnodup).2
      rcases List.mem_cons.mp hb with rfl | hbin
      · exact absurd hk hx
      · exact hbin

theorem nodup_filterMap_find (items : List β) (keyf : β → Nat) (rows : List Nat)
    (hrows : rows.Nodup) :
    (rows.filterMap (fun k => items.find? (fun it => keyf it == k))).Nodup := by
  induction rows with
  | nil => simp
  | cons r rs ih =>
    rw [List.filterMap_cons]
    rcases hf : items.find? (fun it => keyf it == r) with _ | y
    · exact ih (List.nodup_cons.mp hrows).2
    · rw [List.nodup_cons]
      refine ⟨?_, ih (List.nodup_cons.mp hrows).2⟩
      intro hmem
      obtain ⟨k, hk, hfk⟩ := List.mem_filterMap.mp hmem
      have h1 : keyf y = r := by simpa using List.find?_some hf
      have h2 : keyf y = k := by simpa using List.find?_some hfk
      exact (List.nodup_cons.mp hrows).1 (by rw [← h1, h2]; exact hk)

/-- The SQL-join shape (one found item per reference row) is a permutation
of the scan-and-filter shape, when the referenced keys are unique. -/
theorem filterMap_find_perm (items : List β) (keyf : β → Nat) (rows : List Nat)
    (hitems : (items.map keyf).Nodup) (hrows : rows.Nodup) :
    (rows.filterMap (fun k => items.find? (fun it => keyf it == k))).Perm
      (items.filter (fun it => rows.contains (keyf it))) := by
  rw [List.perm_ext_iff_of_nodup (nodup_filterMap_find items keyf rows hrows)
    ((List.Nodup.of_map keyf hitems).filter _)]
  intro b
  rw [List.mem_filterMap, List.mem_filter]
  constructor
  · rintro ⟨k, hk, hfk⟩
    have hb : b ∈ items := List.mem_of_find?_eq_some hfk
    have hkey : keyf b = k := by simpa using List.find?_some hfk
    refine ⟨hb, ?_⟩
    rw [List.elem_iff, hkey]
    exact hk
  · rintro ⟨hb, hcont⟩
    have hkmem : keyf b ∈ rows := by
      rw [List.elem_iff] at hcont
      exact hcont
    exact ⟨keyf b, hkmem, find?_eq_some_of_key items keyf b (keyf b) hb rfl hitems⟩

theorem filterMap_find_perm_rows (items : List β) (keyf : β → Nat)
    (entries : List PostTag) (ref : PostTag → Nat)
    (hitems : (items.map keyf).Nodup) (hrows : (entries.map ref).Nodup) :
    (entries.filterMap (fun pt => items.find? (fun it => keyf it == ref pt))).Perm
      (items.filter (fun it => (entries.map ref).contains (keyf it))) := by
  have h0 : entries.filterMap (fun pt => items.find? (fun it => keyf it == ref pt))
      = (entries.map ref).filterMap (fun k => items.find? (fun it => keyf it == k)) := by
    rw [List.filterMap_map]
    rfl
  rw [h0]
  exact filterMap_find_perm items keyf _ hitems hrows

/-- Join rows with one fixed postId have pairwise distinct tagIds when the
(postId, tagId) pairs are pairwise distinct. -/
theorem nodup_tagIds_of_pairsNodup (l : List PostTag) (p : Nat)
    (h : (l.map (fun pt => (pt.postId, pt.tagId))).Nodup) :
    ((l.filter (fun pt => pt.postId == p)).map (fun pt => pt.tagId)).Nodup := by
  have hsub : ((l.filter (fun pt => pt.postId == p)).map
      (fun pt => (pt.postId, pt.tagId))).Nodup :=
    ((List.filter_sublist l).map _).nodup h
  have hsub2 : (l.filter (fun pt => pt.postId == p)).Pairwise
      (fun a b => (a.postId, a.tagId) ≠ (b.postId, b.tagId)) :=
    List.pairwise_map.mp hsub
  refine List.pairwise_map.mpr ?_
  refine hsub2.imp_of_mem ?_
  intro a b ha hb hne hteq
  apply hne
  have hpa : a.postId = p := by simpa using List.of_mem_filter ha
  have hpb : b.postId = p := by simpa using List.of_mem_filter hb
  rw [hpa, hpb, hteq]

/-- Join rows with one fixed tagId have pairwise distinct postIds when the
(postId, tagId) pairs are pairwise distinct. -/
theorem nodup_postIds_of_pairsNodup (l : List PostTag) (t : Nat)
    (h : (l.map (fun pt => (pt.postId, pt.tagId))).Nodup) :
    ((l.filter (fun pt => pt.tagId == t)).map (fun pt => pt.postId)).Nodup := by
  have hsub : ((l.filter (fun pt => pt.tagId == t)).map
      (fun pt => (pt.postId, pt.tagId))).Nodup :=
    ((List.filter_sublist l).map _).nodup h
  have hsub2 : (l.filter (fun pt => pt.tagId == t)).Pairwise
      (fun a b => (a.postId, a.tagId) ≠ (b.postId, b.tagId)) :=
    List.pairwise_map.mp hsub
  refine List.pairwise_map.mpr ?_
  refine hsub2.imp_of_mem ?_
  intro a b ha hb hne hteq
  apply hne
  have hpa : a.tagId = t := by simpa using List.of_mem_filter ha
  have hpb : b.tagId = t := by simpa using List.of_mem_filter hb
  rw [hpa, hpb, hteq]

/-- `Math.ceil(total/limit)` equals ceiling division of naturals. -/
theorem jsCeilDiv_eq (t l : Nat) (hl : 1 ≤ l) :
    jsCeilDiv t l = (t + l - 1) / l := by
  unfold jsCeilDiv
  rcases Nat.eq_zero_or_pos t with ht | ht
  · subst ht
    rw [Nat.cast_zero, zero_div, Nat.ceil_zero, eq_comm, Nat.div_eq_of_lt (by omega)]
  · have hlq : (0 : ℚ) < (l : ℚ) := by exact_mod_cast hl
    have hdm := Nat.div_add_mod (t + l - 1) l
    have hmlt : (t + l - 1) % l < l := Nat.mod_lt _ (by omega)
    have hd1 : 1 ≤ (t + l - 1) / l := by
      rw [Nat.le_div_iff_mul_le (by omega)]; omega
    have hmul : ((t + l - 1) / l - 1) * l = l * ((t + l - 1) / l) - l := by
      rw [Nat.sub_mul, one_mul, Nat.mul_comm]
    have hle : l ≤ l * ((t + l - 1) / l) := Nat.le_mul_of_pos_right l (by omega)
    rw [Nat.ceil_eq_iff (by omega)]
    constructor
    · rw [lt_div_iff₀ hlq]
      have : ((t + l - 1) / l - 1) * l < t := by omega
      exact_mod_cast this
    · rw [div_le_iff₀ hlq]
      have : t ≤ ((t + l - 1) / l) * l := by
        rw [Nat.mul_comm]; omega
      exact_mod_cast this

theorem authorOk_iff (s : StoreState) (o : Option Nat) :
    DatabaseStorage.authorOk s o = true
      ↔ ∀ a, o = some a → ∃ u ∈ s.users, u.id = a := by
  cases o with
  | none => simp [DatabaseStorage.authorOk]
  | some a =>
    simp only [DatabaseStorage.authorOk, List.any_eq_true, beq_iff_eq,
      Option.some.injEq]
    constructor
    · rintro ⟨u, hu, hid⟩ a2 ha2
      exact ⟨u, hu, by rw [← ha2]; exact hid⟩
    · intro h
      exact h a rfl

theorem featured_eq (s : StoreState) :
    MemStorage.getFeaturedPost s = DatabaseStorage.getFeaturedPost s := by
  simp only [MemStorage.getFeaturedPost, DatabaseStorage.getFeaturedPost,
    MemStorage.getAllPosts]
  cases h : sortPostsDesc s.posts with
  | nil => simp
  | cons x xs => simp

theorem paginated_eq (s : StoreState) (page limit : Nat) (hp : 1 ≤ page) :
    MemStorage.getPaginatedPosts s page limit
      = DatabaseStorage.getPaginatedPosts s page limit := by
  obtain ⟨q, rfl⟩ : ∃ q, page = q + 1 := ⟨page - 1, by omega⟩
  have hspan : (q + 1) * limit - (q + 1 - 1) * limit = limit := by
    have h1 : (q + 1) * limit = q * limit + limit := by ring
    simp only [Nat.add_sub_cancel]
    omega
  simp only [MemStorage.getPaginatedPosts, DatabaseStorage.getPaginatedPosts,
    MemStorage.getAllPosts]
  rw [hspan, length_sortPostsDesc]

/-- A list of length 5 sliced as `slice(2, 4)` yields positions 2 and 3. -/
theorem take_two_drop_two_of_length_five (l : List Post) (h : l.length = 5) :
    (l.drop 2).take 2 = [l.get ⟨2, by omega⟩, l.get ⟨3, by omega⟩] := by
  rcases l with _ | ⟨a, _ | ⟨b, _ | ⟨c, _ | ⟨d, _ | ⟨e, _ | ⟨f, t⟩⟩⟩⟩⟩⟩ <;>
    (simp only [List.length_cons, List.length_nil] at h; (try omega); (try rfl))

/-!
### Example stores used by the witnesses and counterexamples
-/

def mkP (id : Nat) (sl : String) (t : Int) : Post :=
  { id := id, slug := sl, title := "T" ++ sl, excerpt := "E" ++ sl
    content := "", coverImage := none, publishedAt := t
    readingTime := "1 min", authorId := none }

def emptyStore : StoreState :=
  { users := [], posts := [], tags := [], postTags := [], subscribers := []
    currentUserId := 1, currentPostId := 1, currentTagId := 1
    currentPostTagId := 1, currentSubscriberId := 1 }

/-- Five posts with pairwise distinct timestamps, inserted out of order. -/
def store5 : StoreState :=
  { emptyStore with
      posts := [mkP 1 "p1" 10, mkP 2 "p2" 50, mkP 3 "p3" 30, mkP 4 "p4" 40,
                mkP 5 "p5" 20]
      currentPostId := 6 }

/-- One post, one tag, one join row linking them. -/
def exStore1 : StoreState :=
  { emptyStore with
      posts := [mkP 1 "a" 10]
      tags := [{ id := 1, name := "T1", slug := "t1" }]
      postTags := [{ id := 1, postId := 1, tagId := 1 }]
      currentPostId := 2, currentTagId := 2, currentPostTagId := 2 }

/-- One post, one tag, no join rows, one subscriber. -/
def exStore2 : StoreState :=
  { emptyStore with
      posts := [mkP 1 "a" 10]
      tags := [{ id := 1, name := "T1", slug := "t1" }]
      subscribers := [{ id := 1, email := "a@b.com", createdAt := 0 }]
      currentPostId := 2, currentTagId := 2, currentSubscriberId := 2 }

/-!
### C6 — every list of posts is sorted by publishedAt descending
-/

/-- Non-increasing `publishedAt` along the list. -/
def SortedByPublishedAtDesc (l : List Post) : Prop :=
  l.Pairwise (fun a b => b.publishedAt ≤ a.publishedAt)

/-- C6: every list of posts returned by getAllPosts, getPaginatedPosts,
getPostsByTagId, or getPostsByTagSlug (in either implementation) is sorted
by publishedAt in non-increasing order. -/
theorem C6_lists_sorted (s : StoreState) (page limit tagId : Nat) (slug : String) :
    SortedByPublishedAtDesc (MemStorage.getAllPosts s)
    ∧ SortedByPublishedAtDesc (MemStorage.getPaginatedPosts s page limit).posts
    ∧ SortedByPublishedAtDesc (MemStorage.getPostsByTagId s tagId)
    ∧ SortedByPublishedAtDesc (MemStorage.getPostsByTagSlug s slug)
    ∧ SortedByPublishedAtDesc (DatabaseStorage.getAllPosts s)
    ∧ SortedByPublishedAtDesc (DatabaseStorage.getPaginatedPosts s page limit).posts
    ∧ SortedByPublishedAtDesc (DatabaseStorage.getPostsByTagId s tagId)
    ∧ SortedByPublishedAtDesc (DatabaseStorage.getPostsByTagSlug s slug) := by
  have hsub : ∀ (l : List Post) (m n : Nat), SortedByPublishedAtDesc l →
      SortedByPublishedAtDesc ((l.drop m).take n) := fun l m n h =>
    List.Pairwise.sublist ((List.take_sublist _ _).trans (List.drop_sublist _ _)) h
  refine ⟨sorted_sortPostsDesc _, hsub _ _ _ (sorted_sortPostsDesc _),
    sorted_sortPostsDesc _, ?_, sorted_sortPostsDesc _,
    hsub _ _ _ (sorted_sortPostsDesc _), sorted_sortPostsDesc _, ?_⟩
  · unfold MemStorage.getPostsByTagSlug
    cases MemStorage.getTagBySlug s slug with
    | none => exact List.Pairwise.nil
    | some t => exact sorted_sortPostsDesc _
  · unfold DatabaseStorage.getPostsByTagSlug
    cases DatabaseStorage.getTagBySlug s slug with
    | none => exact List.Pairwise.nil
    | some t => exact sorted_sortPostsDesc _

/-!
### C1 — pagination bounds, total, totalPages
-/

/-- C1: for every store and page, limit >= 1, getPaginatedPosts returns at
most limit posts and total equal to the store's post count, and the GET
/api/posts response reports totalPages = ceil(total/limit); on a store with
5 posts, page=2 and limit=2 yield the recency-sorted positions 2 and 3 and
totalPages = 3. -/
theorem C1_pagination (s : StoreState) (page limit : Nat)
    (hp : 1 ≤ page) (hl : 1 ≤ limit) :
    (MemStorage.getPaginatedPosts s page limit).posts.length ≤ limit
    ∧ (MemStorage.getPaginatedPosts s page limit).total = s.posts.length
    ∧ (apiPosts s page limit).pagination.totalPages
        = ((MemStorage.getPaginatedPosts s page limit).total + limit - 1) / limit
    ∧ ∀ h5 : (MemStorage.getAllPosts s).length = 5,
        (MemStorage.getPaginatedPosts s 2 2).posts
          = [(MemStorage.getAllPosts s).get ⟨2, by omega⟩,
             (MemStorage.getAllPosts s).get ⟨3, by omega⟩]
        ∧ (apiPosts s 2 2).pagination.totalPages = 3 := by
  obtain ⟨q, rfl⟩ : ∃ q, page = q + 1 := ⟨page - 1, by omega⟩
  have hspan : (q + 1) * limit - (q + 1 - 1) * limit = limit := by
    have h1 : (q + 1) * limit = q * limit + limit := by ring
    simp only [Nat.add_sub_cancel]
    omega
  refine ⟨?_, ?_, ?_, ?_⟩
  · simp only [MemStorage.getPaginatedPosts, hspan]
    rw [List.length_take]
    omega
  · exact length_sortPostsDesc s.posts
  · simp only [apiPosts, jsCeilDiv_eq _ _ hl]
  · intro h5
    constructor
    · simp only [MemStorage.getPaginatedPosts]
      exact take_two_drop_two_of_length_five _ h5
    · have htot : s.posts.length = 5 := by
        rw [← length_sortPostsDesc s.posts]; exact h5
      simp only [apiPosts, MemStorage.getPaginatedPosts, MemStorage.getAllPosts,
        length_sortPostsDesc, htot]
      rw [jsCeilDiv_eq 5 2 (by omega)]

/-- Witness for C1 on the concrete five-post store. -/
theorem C1_pagination_witness :
    (MemStorage.getPaginatedPosts store5 2 2).posts.length ≤ 2
    ∧ (MemStorage.getPaginatedPosts store5 2 2).total = 5
    ∧ (MemStorage.getPaginatedPosts store5 2 2).posts = [mkP 3 "p3" 30, mkP 5 "p5" 20]
    ∧ (apiPosts store5 2 2).pagination.totalPages = 3 := by
  have h := C1_pagination store5 2 2 (by omega) (by omega)
  have h5 : (MemStorage.getAllPosts store5).length = 5 := by rfl
  refine ⟨h.1, h.2.1, ?_, (h.2.2.2 h5).2⟩
  rw [(h.2.2.2 h5).1]
  rfl

/-!
### C4 — subscribing twice conflicts, a fresh email adds one row
-/

/-- C4: POST /api/subscribe with an email already present yields 400
"Email already subscribed" and leaves the store unchanged; with a fresh
email it yields 201 and appends exactly one subscriber row with that email
(`hfresh` is the id-counter invariant of the subscribers map). -/
theorem C4_subscribe (s : StoreState) (e : String) (now : Int)
    (hfresh : ∀ b ∈ s.subscribers, b.id < s.currentSubscriberId) :
    ((∃ sub ∈ s.subscribers, sub.email = e) →
      apiSubscribe s e now = (400, "Email already subscribed", s))
    ∧ ((∀ sub ∈ s.subscribers, sub.email ≠ e) →
      (apiSubscribe s e now).1 = 201
      ∧ (apiSubscribe s e now).2.2.subscribers
          = s.subscribers ++ [{ id := s.currentSubscriberId, email := e, createdAt := now }]
      ∧ (apiSubscribe s e now).2.2.subscribers.length = s.subscribers.length + 1) := by
  constructor
  · rintro ⟨sub, hmem, hema⟩
    have hne : MemStorage.getSubscriberByEmail s e ≠ none := by
      unfold MemStorage.getSubscriberByEmail
      rw [Ne, List.find?_eq_none]
      push_neg
      exact ⟨sub, hmem, by simp [hema]⟩
    unfold apiSubscribe
    cases hfind : MemStorage.getSubscriberByEmail s e with
    | none => exact absurd hfind hne
    | some v => rfl
  · intro hno
    have hnone : MemStorage.getSubscriberByEmail s e = none := by
      unfold MemStorage.getSubscriberByEmail
      rw [List.find?_eq_none]
      intro x hx
      simpa using hno x hx
    have happ : mapSet Subscriber.id
        { id := s.currentSubscriberId, email := e, createdAt := now } s.subscribers
        = s.subscribers ++ [{ id := s.currentSubscriberId, email := e, createdAt := now }] :=
      mapSet_append _ _ _ fun b hb => by
        have := hfresh b hb
        simp only []
        omega
    simp [apiSubscribe, hnone, MemStorage.createSubscriber, happ]

/-- Witness for C4: both branches on a concrete store already holding
a@b.com. -/
theorem C4_subscribe_witness :
    apiSubscribe exStore2 "a@b.com" 7 = (400, "Email already subscribed", exStore2)
    ∧ (apiSubscribe exStore2 "c@d.com" 7).1 = 201
    ∧ (apiSubscribe exStore2 "c@d.com" 7).2.2.subscribers.length = 2 := by
  have h1 := (C4_subscribe exStore2 "a@b.com" 7 (by decide)).1
    ⟨{ id := 1, email := "a@b.com", createdAt := 0 }, by decide, rfl⟩
  have h2 := (C4_subscribe exStore2 "c@d.com" 7 (by decide)).2 (by decide)
  exact ⟨h1, h2.1, by rw [h2.2.2]; rfl⟩

/-!
### C8 — featured post is the most recent; 404 on an empty store
-/

/-- C8: on a non-empty store getFeaturedPost returns the head of the
recency-sorted order, a post of maximal publishedAt, and the endpoint
serves it with 200; on an empty store it returns none and the endpoint
responds 404. -/
theorem C8_featured (s : StoreState) :
    (s.posts = [] → MemStorage.getFeaturedPost s = none ∧ apiFeaturedPost s = (404, none))
    ∧ (s.posts ≠ [] → ∃ p, MemStorage.getFeaturedPost s = some p
        ∧ (MemStorage.getAllPosts s).head? = some p
        ∧ p ∈ s.posts
        ∧ (∀ q ∈ s.posts, q.publishedAt ≤ p.publishedAt)
        ∧ apiFeaturedPost s = (200, some (withTags s p))) := by
  constructor
  · intro hnil
    have : MemStorage.getAllPosts s = [] := by
      simp [MemStorage.getAllPosts, hnil, sortPostsDesc]
    have hfeat : MemStorage.getFeaturedPost s = none := by
      simp [MemStorage.getFeaturedPost, this]
    exact ⟨hfeat, by simp [apiFeaturedPost, hfeat]⟩
  · intro hne
    have hlen : 0 < (MemStorage.getAllPosts s).length := by
      unfold MemStorage.getAllPosts
      rw [length_sortPostsDesc]
      exact List.length_pos.mpr hne
    cases hall : MemStorage.getAllPosts s with
    | nil => rw [hall] at hlen; simp at hlen
    | cons p rest =>
      have hfeat : MemStorage.getFeaturedPost s = some p := by
        simp [MemStorage.getFeaturedPost, hall]
      refine ⟨p, hfeat, rfl, ?_, ?_, by simp [apiFeaturedPost, hfeat]⟩
      · have : p ∈ MemStorage.getAllPosts s := by rw [hall]; exact List.mem_cons_self _ _
        exact mem_sortPostsDesc.mp this
      · intro q hq
        have hq2 : q ∈ p :: rest := by
          rw [← hall]
          exact mem_sortPostsDesc.mpr hq
        rcases List.mem_cons.mp hq2 with rfl | hq3
        · exact le_refl _
        · have hsorted := sorted_sortPostsDesc s.posts
          rw [show sortPostsDesc s.posts = MemStorage.getAllPosts s from rfl, hall] at hsorted
          exact (List.pairwise_cons.mp hsorted).1 q hq3

/-- Witness for C8: the featured post of the five-post store is the one
with timestamp 50, served with 200; the empty store serves 404. -/
theorem C8_featured_witness :
    MemStorage.getFeaturedPost store5 = some (mkP 2 "p2" 50)
    ∧ (apiFeaturedPost store5).1 = 200
    ∧ apiFeaturedPost emptyStore = (404, none) := by
  obtain ⟨p, hfeat, hhead, _, _, hapi⟩ :=
    (C8_featured store5).2 (by simp [store5])
  have hp : p = mkP 2 "p2" 50 := by
    have : (MemStorage.getAllPosts store5).head? = some (mkP 2 "p2" 50) := by rfl
    rw [this] at hhead
    exact (Option.some_inj.mp hhead).symm
  subst hp
  exact ⟨hfeat, by rw [hapi], ((C8_featured emptyStore).1 rfl).2⟩

/-!
### C10 — unknown tag slug yields an empty list and 200
-/

/-- C10: when no tag has slug s, getPostsByTagSlug returns [] in both
implementations and GET /api/tags/:slug/posts responds 200 with an empty
array. -/
theorem C10_unknown_tag_slug (s : StoreState) (slug : String)
    (h : ∀ t ∈ s.tags, t.slug ≠ slug) :
    MemStorage.getPostsByTagSlug s slug = []
    ∧ DatabaseStorage.getPostsByTagSlug s slug = []
    ∧ apiPostsByTagSlug s slug = (200, []) := by
  have hmem : MemStorage.getTagBySlug s slug = none := by
    unfold MemStorage.getTagBySlug
    rw [List.find?_eq_none]
    intro t ht
    simpa using h t ht
  have hdb : DatabaseStorage.getTagBySlug s slug = none := by
    unfold DatabaseStorage.getTagBySlug
    rw [List.find?_eq_none]
    intro t ht
    simpa using h t ht
  have h1 : MemStorage.getPostsByTagSlug s slug = [] := by
    simp [MemStorage.getPostsByTagSlug, hmem]
  refine ⟨h1, by simp [DatabaseStorage.getPostsByTagSlug, hdb], ?_⟩
  simp [apiPostsByTagSlug, h1]

/-- Witness for C10 on a store whose only tag has slug t1. -/
theorem C10_unknown_tag_slug_witness :
    MemStorage.getPostsByTagSlug exStore2 "nope" = []
    ∧ apiPostsByTagSlug exStore2 "nope" = (200, []) := by
  have h := C10_unknown_tag_slug exStore2 "nope" (by decide)
  exact ⟨h.1, h.2.2⟩

/-!
### C2 — deletePost and the join rows

`MemStorage.deletePost` only removes the post from the posts map and never
touches the join map, so the claim fails for the in-memory implementation;
`DatabaseStorage.deletePost` deletes the join rows first and satisfies it.
-/

/-- Counterexample to C2 as stated: on a store with one post (id 1), one
tag, and one join row, the in-memory deletePost succeeds yet the join row
referencing the deleted id remains and getTagsByPostId on the deleted id
is non-empty. -/
theorem C2_deletePost_cex :
    (MemStorage.deletePost exStore1 1).1 = true
    ∧ (MemStorage.deletePost exStore1 1).2.postTags
        = [{ id := 1, postId := 1, tagId := 1 }]
    ∧ MemStorage.getTagsByPostId (MemStorage.deletePost exStore1 1).2 1
        = [{ id := 1, name := "T1", slug := "t1" }] := by
  refine ⟨rfl, rfl, rfl⟩

/-- C2 amended: the cascade holds for the persistent implementation —
after DatabaseStorage.deletePost(id) no join row referencing id remains
and getTagsByPostId(id) returns the empty list — while
MemStorage.deletePost leaves the join map unchanged. -/
theorem C2_deletePost_cascade (s : StoreState) (id : Nat) :
    (∀ pt ∈ (DatabaseStorage.deletePost s id).2.postTags, pt.postId ≠ id)
    ∧ DatabaseStorage.getTagsByPostId (DatabaseStorage.deletePost s id).2 id = []
    ∧ (MemStorage.deletePost s id).2.postTags = s.postTags := by
  refine ⟨?_, ?_, rfl⟩
  · intro pt hpt
    have := List.of_mem_filter hpt
    simpa using this
  · simp only [DatabaseStorage.getTagsByPostId, DatabaseStorage.deletePost,
      List.filter_filter]
    rw [List.filter_eq_nil_iff.mpr ?_, List.filterMap_nil]
    intro pt _
    simp

/-!
### C5 — add/remove tag association

Adding the association and querying gives the tag exactly once (the
in-memory query deduplicates); but removeTagFromPost deletes only the
first matching join row, so when a duplicate association already existed
the tag is still reported after removal — the universally quantified claim
fails.
-/

/-- Counterexample to C5 as stated: on a store already holding the (1,1)
association, addTagToPost({1,1}) followed by removeTagFromPost(1,1) leaves
an association behind, and getTagsByPostId(1) still contains the tag. -/
theorem C5_add_remove_cex :
    (MemStorage.removeTagFromPost
        (MemStorage.addTagToPost exStore1 { postId := 1, tagId := 1 }).2 1 1).1 = true
    ∧ ({ id := 1, name := "T1", slug := "t1" } : Tag) ∈
        MemStorage.getTagsByPostId
          (MemStorage.removeTagFromPost
            (MemStorage.addTagToPost exStore1 { postId := 1, tagId := 1 }).2 1 1).2 1 := by
  refine ⟨rfl, by decide⟩

/-- C5 amended: with the join-map key invariants and provided the store
holds no (p,t) association yet, after addTagToPost({p,t}) the tag with id
t occurs exactly once in getTagsByPostId(p), and after the subsequent
removeTagFromPost(p,t) it is absent. -/
theorem C5_add_remove_tag (s : StoreState) (p t : Nat) (tg : Tag)
    (htg : tg ∈ s.tags) (hid : tg.id = t)
    (hnodup : (s.tags.map Tag.id).Nodup)
    (hptid : ∀ pt ∈ s.postTags, pt.id < s.currentPostTagId)
    (hfresh : ∀ pt ∈ s.postTags, ¬(pt.postId = p ∧ pt.tagId = t)) :
    (MemStorage.getTagsByPostId (MemStorage.addTagToPost s { postId := p, tagId := t }).2 p).count tg = 1
    ∧ tg ∉ MemStorage.getTagsByPostId
        (MemStorage.removeTagFromPost
          (MemStorage.addTagToPost s { postId := p, tagId := t }).2 p t).2 p := by
  have hptapp : (MemStorage.addTagToPost s { postId := p, tagId := t }).2.postTags
      = s.postTags ++ [{ id := s.currentPostTagId, postId := p, tagId := t }] :=
    mapSet_append PostTag.id _ s.postTags fun x hx => Nat.ne_of_lt (hptid x hx)
  constructor
  · show (s.tags.filter (fun x =>
        ((((MemStorage.addTagToPost s { postId := p, tagId := t }).2.postTags).filter
          (fun pt => pt.postId == p)).map (fun pt => pt.tagId)).contains x.id)).count tg = 1
    rw [hptapp, List.filter_append]
    have hnewkeep : List.filter (fun pt => pt.postId == p)
        ([{ id := s.currentPostTagId, postId := p, tagId := t }] : List PostTag)
        = [{ id := s.currentPostTagId, postId := p, tagId := t }] := by
      simp
    rw [hnewkeep]
    have hcontains : ((List.filter (fun pt : PostTag => pt.postId == p) s.postTags
            ++ ([{ id := s.currentPostTagId, postId := p, tagId := t }] : List PostTag)).map
          (fun pt : PostTag => pt.tagId)).contains tg.id = true := by
      rw [List.elem_iff, List.map_append]
      exact List.mem_append_right _ (by simp [hid])
    exact (count_filter_of_true _ s.tags tg hcontains).trans
      (List.count_eq_one_of_mem (List.Nodup.of_map _ hnodup) htg)
  · have hfind : (MemStorage.addTagToPost s { postId := p, tagId := t }).2.postTags.find?
        (fun pt => pt.postId == p && pt.tagId == t)
        = some { id := s.currentPostTagId, postId := p, tagId := t } := by
      rw [hptapp, List.find?_append]
      have h1 : s.postTags.find? (fun pt => pt.postId == p && pt.tagId == t) = none := by
        rw [List.find?_eq_none]
        intro x hx
        simpa using hfresh x hx
      rw [h1]
      simp
    have hdel : mapDelete PostTag.id s.currentPostTagId
        (MemStorage.addTagToPost s { postId := p, tagId := t }).2.postTags
        = (s.postTags, true) := by
      rw [hptapp]
      exact mapDelete_append PostTag.id
        { id := s.currentPostTagId, postId := p, tagId := t } s.postTags
        fun x hx => Nat.ne_of_lt (hptid x hx)
    have hstate : (MemStorage.removeTagFromPost
        (MemStorage.addTagToPost s { postId := p, tagId := t }).2 p t).2
        = { (MemStorage.addTagToPost s { postId := p, tagId := t }).2 with
              postTags := s.postTags } := by
      unfold MemStorage.removeTagFromPost
      rw [hfind]
      simp only [hdel]
    intro habs
    rw [hstate] at habs
    have habs2 : tg ∈ s.tags.filter (fun x =>
        ((s.postTags.filter (fun pt => pt.postId == p)).map
          (fun pt => pt.tagId)).contains x.id) := habs
    have hpred := List.of_mem_filter habs2
    rw [List.elem_iff] at hpred
    obtain ⟨entry, hentry, htid⟩ := List.mem_map.mp hpred
    have hent2 := List.mem_filter.mp hentry
    exact hfresh entry hent2.1 ⟨by simpa using hent2.2, by rw [htid, hid]⟩

/-- Witness for the amended C5 on a store with one post, one tag, and no
prior association. -/
theorem C5_add_remove_tag_witness :
    (MemStorage.getTagsByPostId
        (MemStorage.addTagToPost exStore2 { postId := 1, tagId := 1 }).2 1).count
        { id := 1, name := "T1", slug := "t1" } = 1
    ∧ ({ id := 1, name := "T1", slug := "t1" } : Tag) ∉
        MemStorage.getTagsByPostId
          (MemStorage.removeTagFromPost
            (MemStorage.addTagToPost exStore2 { postId := 1, tagId := 1 }).2 1 1).2 1 :=
  C5_add_remove_tag exStore2 1 1 { id := 1, name := "T1", slug := "t1" }
    (by decide) rfl (by decide) (by decide) (by decide)

/-!
### C9 — creation operations and uniqueness constraints

The persistent implementation fails exactly on a uniqueness violation; the
in-memory implementation performs no checks at all, so createPost with an
existing slug does succeed with a second row bearing that slug,
contradicting the claim.
-/

/-- An insert payload whose slug collides with the post of exStore1. -/
def dupInsert : InsertPost :=
  { slug := "a", title := "T", excerpt := "E", content := ""
    coverImage := none, publishedAt := 99, readingTime := "1 min"
    authorId := none }

/-- An insert payload with a fresh slug and a null authorId. -/
def freshInsert : InsertPost :=
  { slug := "b", title := "T", excerpt := "E", content := ""
    coverImage := none, publishedAt := 5, readingTime := "1 min"
    authorId := none }

/-- An insert payload with a fresh slug whose authorId references no
user of exStore1. -/
def danglingInsert : InsertPost :=
  { slug := "c", title := "T", excerpt := "E", content := ""
    coverImage := none, publishedAt := 5, readingTime := "1 min"
    authorId := some 7 }

/-- Counterexample to C9 as stated: MemStorage.createPost with the slug of
an existing post succeeds and the store then holds two rows bearing that
slug. -/
theorem C9_createPost_dup_cex :
    (MemStorage.createPost exStore1 dupInsert).1.slug = "a"
    ∧ ((MemStorage.createPost exStore1 dupInsert).2.posts.filter
        (fun p => p.slug == "a")).length = 2 := by
  exact ⟨rfl, rfl⟩

/-- Evaluation of an if-then-else insert outcome. -/
theorem isOk_ite (cond : Bool) (msg : String) (val : β) :
    ((if cond = true then Except.error msg else Except.ok val) :
      Except String β).isOk = !cond := by
  cases cond <;> rfl

theorem isOk_error (msg : String) :
    (Except.error msg : Except String β).isOk = false := rfl

theorem isOk_ok (v : β) : (Except.ok v : Except String β).isOk = true := rfl

/-- C9 amended: DatabaseStorage's creation operations succeed exactly when
no constraint is violated — createPost fails exactly on a duplicate slug
or a dangling authorId (the posts.author_id foreign key), createTag on a
duplicate name or slug, createSubscriber on a duplicate email — while
MemStorage's createPost always succeeds by appending the new row, even one
with a duplicate slug. -/
theorem C9_create_constraints (s : StoreState) (ip : InsertPost) (it : InsertTag)
    (e : String) (now : Int)
    (hfp : ∀ p ∈ s.posts, p.id < s.currentPostId) :
    ((DatabaseStorage.createPost s ip).isOk = true
        ↔ (∀ p ∈ s.posts, p.slug ≠ ip.slug)
          ∧ ∀ a, ip.authorId = some a → ∃ u ∈ s.users, u.id = a)
    ∧ ((DatabaseStorage.createTag s it).isOk = true
        ↔ ∀ t ∈ s.tags, t.name ≠ it.name ∧ t.slug ≠ it.slug)
    ∧ ((DatabaseStorage.createSubscriber s e now).isOk = true
        ↔ ∀ b ∈ s.subscribers, b.email ≠ e)
    ∧ (MemStorage.createPost s ip).2.posts = s.posts ++ [mkPost s.currentPostId ip]
    ∧ (MemStorage.createPost s ip).1 = mkPost s.currentPostId ip := by
  refine ⟨?_, ?_, ?_, ?_, rfl⟩
  · unfold DatabaseStorage.createPost
    by_cases h1 : s.posts.any (fun p => p.slug == ip.slug) = true
    · rw [if_pos h1, isOk_error]
      simp only [Bool.false_eq_true, false_iff, not_and]
      intro hs
      obtain ⟨p, hp2, hbeq⟩ := List.any_eq_true.mp h1
      exact absurd (by simpa using hbeq) (hs p hp2)
    · by_cases h2 : DatabaseStorage.authorOk s ip.authorId = true
      · rw [if_neg h1, if_pos h2, isOk_ok]
        refine ⟨fun _ => ⟨?_, (authorOk_iff s ip.authorId).mp h2⟩, fun _ => rfl⟩
        intro p hp2 heq
        exact h1 (List.any_eq_true.mpr ⟨p, hp2, by simpa using heq⟩)
      · rw [if_neg h1, if_neg h2, isOk_error]
        simp only [Bool.false_eq_true, false_iff, not_and]
        intro _ hfk
        exact h2 ((authorOk_iff s ip.authorId).mpr hfk)
  · rw [show (DatabaseStorage.createTag s it).isOk
        = !(s.tags.any (fun t => t.name == it.name || t.slug == it.slug)) from
      isOk_ite _ _ _]
    rw [Bool.not_eq_true', List.any_eq_false]
    simp only [Bool.or_eq_true, beq_iff_eq, not_or]
  · rw [show (DatabaseStorage.createSubscriber s e now).isOk
        = !(s.subscribers.any (fun b => b.email == e)) from isOk_ite _ _ _]
    rw [Bool.not_eq_true', List.any_eq_false]
    simp only [beq_iff_eq]
  · exact mapSet_append Post.id _ s.posts fun x hx => Nat.ne_of_lt (hfp x hx)

/-- Witness for the amended C9: the duplicate-slug insert and the
dangling-authorId insert both fail in the persistent implementation; the
duplicate-slug insert appends a second row in the in-memory one. -/
theorem C9_create_constraints_witness :
    (DatabaseStorage.createPost exStore1 dupInsert).isOk = false
    ∧ (DatabaseStorage.createPost exStore1 danglingInsert).isOk = false
    ∧ (MemStorage.createPost exStore1 dupInsert).2.posts.length = 2
    ∧ (DatabaseStorage.createSubscriber exStore1 "x@y.z" 0).isOk = true := by
  have h := C9_create_constraints exStore1 dupInsert
    { name := "N", slug := "n" } "x@y.z" 0 (by decide)
  have h2 := C9_create_constraints exStore1 danglingInsert
    { name := "N", slug := "n" } "x@y.z" 0 (by decide)
  refine ⟨?_, ?_, ?_, ?_⟩
  · rw [← Bool.not_eq_true]
    intro habs
    exact (h.1.mp habs).1 (mkP 1 "a" 10) (by decide) rfl
  · rw [← Bool.not_eq_true]
    intro habs
    obtain ⟨u, hu, _⟩ := (h2.1.mp habs).2 7 rfl
    cases hu
  · rw [h.2.2.2.1]
    rfl
  · exact h.2.2.1.mpr (by decide)

/-!
### C7 — RSS document structure
-/

/-- Concatenation of a list of strings. -/
def concatStrs : List String → String
  | [] => ""
  | x :: xs => x ++ concatStrs xs

theorem foldl_append_concat (f : α → String) (l : List α) (init : String) :
    l.foldl (fun acc x => acc ++ f x) init = init ++ concatStrs (l.map f) := by
  induction l generalizing init with
  | nil => simp [concatStrs]
  | cons x xs ih =>
    simp only [List.foldl_cons, List.map_cons, concatStrs]
    rw [ih, String.append_assoc]

theorem digitChar_mod_isDigit (n : Nat) : (Nat.digitChar (n % 10)).isDigit = true := by
  have h : n % 10 < 10 := Nat.mod_lt _ (by omega)
  generalize hk : n % 10 = k at h
  interval_cases k <;> rfl

theorem getD_mem_of_default_mem {l : List String} {n : Nat} {d : String}
    (hd : d ∈ l) : l.getD n d ∈ l := by
  rw [List.getD_eq_getElem?_getD]
  rcases h : l[n]? with _ | x
  · exact hd
  · exact List.getElem?_mem h

/-- Every `toUTCString` output has the RFC-1123 shape. -/
theorem isRFC1123_jsToUTCString (t : Int) : IsRFC1123 (jsToUTCString t) := by
  refine ⟨weekdayNames.getD ((t.fdiv 86400000 + 4).emod 7).toNat "Thu",
    monthNames.getD ((civilFromDays (t.fdiv 86400000)).2.1 - 1) "Jan",
    _, _, _, _, _, _, _, _, _, _, _, _, rfl,
    getD_mem_of_default_mem (by decide), getD_mem_of_default_mem (by decide), ?_⟩
  intro c hc
  fin_cases hc <;> exact digitChar_mod_isDigit _

/-- C7: the RSS document is the header, one item block per post of
getAllPosts in that order (none for an empty store), then the footer; each
item renders the specified field values, with guid equal to link, link =
base-url + /posts/ + slug, a CDATA-wrapped excerpt, and an RFC-1123
pubDate. -/
theorem C7_rss (s : StoreState) (baseUrl : String) (now : Int) :
    rssXml s baseUrl now
        = rssHeader baseUrl now
          ++ concatStrs ((MemStorage.getAllPosts s).map (rssItem baseUrl))
          ++ rssFooter
    ∧ (s.posts = [] → rssXml s baseUrl now = rssHeader baseUrl now ++ rssFooter)
    ∧ ((MemStorage.getAllPosts s).map (rssItem baseUrl)).length = s.posts.length
    ∧ (MemStorage.getAllPosts s).Perm s.posts
    ∧ ∀ p : Post, rssItem baseUrl p = renderRssItem (specRssItemFields baseUrl p)
        ∧ (specRssItemFields baseUrl p).guid = (specRssItemFields baseUrl p).link
        ∧ (specRssItemFields baseUrl p).link = baseUrl ++ "/posts/" ++ p.slug
        ∧ (specRssItemFields baseUrl p).title = p.title
        ∧ (specRssItemFields baseUrl p).description = "<![CDATA[" ++ p.excerpt ++ "]]>"
        ∧ IsRFC1123 (specRssItemFields baseUrl p).pubDate := by
  refine ⟨?_, ?_, ?_, perm_sortPostsDesc s.posts, ?_⟩
  · unfold rssXml
    rw [foldl_append_concat]
  · intro h
    simp [rssXml, MemStorage.getAllPosts, sortPostsDesc, h]
  · rw [List.length_map]
    exact length_sortPostsDesc s.posts
  · intro p
    refine ⟨?_, rfl, rfl, rfl, rfl, isRFC1123_jsToUTCString p.publishedAt⟩
    simp only [rssItem, renderRssItem, specRssItemFields, String.append_assoc]
    rw [← String.append_assoc "</pubDate>\n      <description>" "<![CDATA["]
    simp

/-- Witness for C7: the empty store renders header plus footer; the
five-post store renders five items. -/
theorem C7_rss_witness :
    rssXml emptyStore "http://x" 0 = rssHeader "http://x" 0 ++ rssFooter
    ∧ ((MemStorage.getAllPosts store5).map (rssItem "http://x")).length = 5 := by
  have h0 := C7_rss emptyStore "http://x" 0
  have h5 := C7_rss store5 "http://x" 0
  exact ⟨h0.2.1 rfl, by rw [h5.2.2.1]; rfl⟩

/-!
### C3 — refinement between the two implementations

The implementations are not indistinguishable: MemStorage enforces no
constraints, so a duplicate-slug createPost succeeds there and fails in
DatabaseStorage. On well-formed states and constraint-respecting inputs
they do agree, operation by operation.
-/

/-- Counterexample to C3 as stated: from corresponding states holding a
post with slug "a", createPost with slug "a" fails in DatabaseStorage but
succeeds in MemStorage, which then holds a second row. -/
theorem C3_impl_divergence_cex :
    (DatabaseStorage.createPost exStore1 dupInsert).toOption = none
    ∧ (MemStorage.createPost exStore1 dupInsert).1 = mkPost 2 dupInsert
    ∧ (MemStorage.createPost exStore1 dupInsert).2.posts.length = 2 :=
  ⟨rfl, rfl, rfl⟩

/-- C3 amended: on a well-formed store the two implementations agree on
every read (post-by-tag and tag-by-post queries up to list order, given no
duplicate join pairs; the unordered getAllTags/getAllSubscribers scans up
to row order) and on every write whose input violates no uniqueness or
foreign-key constraint — for createPost/updatePost this includes the
posts.author_id reference; deletePost agrees when the post has no join
rows. -/
theorem C3_storage_refinement (s : StoreState) (hwf : WF s) :
    (∀ id, MemStorage.getUser s id = DatabaseStorage.getUser s id)
    ∧ (∀ un, MemStorage.getUserByUsername s un = DatabaseStorage.getUserByUsername s un)
    ∧ (∀ iu : InsertUser, (∀ u ∈ s.users, u.username ≠ iu.username) →
        DatabaseStorage.createUser s iu = .ok (MemStorage.createUser s iu))
    ∧ MemStorage.getAllPosts s = DatabaseStorage.getAllPosts s
    ∧ (∀ id, MemStorage.getPostById s id = DatabaseStorage.getPostById s id)
    ∧ (∀ sl, MemStorage.getPostBySlug s sl = DatabaseStorage.getPostBySlug s sl)
    ∧ (∀ ip : InsertPost, (∀ p ∈ s.posts, p.slug ≠ ip.slug) →
        (∀ a, ip.authorId = some a → ∃ u ∈ s.users, u.id = a) →
        DatabaseStorage.createPost s ip = .ok (MemStorage.createPost s ip))
    ∧ (∀ id u, (∀ p0, MemStorage.getPostById s id = some p0 →
          (∀ q ∈ s.posts, q.id ≠ id → q.slug ≠ (applyUpdate p0 u).slug)
          ∧ ((applyUpdate p0 u).authorId = p0.authorId
             ∨ ∀ a, (applyUpdate p0 u).authorId = some a → ∃ us ∈ s.users, us.id = a)) →
        DatabaseStorage.updatePost s id u = .ok (MemStorage.updatePost s id u))
    ∧ (∀ id, (∀ pt ∈ s.postTags, pt.postId ≠ id) →
        MemStorage.deletePost s id = DatabaseStorage.deletePost s id)
    ∧ MemStorage.getFeaturedPost s = DatabaseStorage.getFeaturedPost s
    ∧ (∀ page limit, 1 ≤ page →
        MemStorage.getPaginatedPosts s page limit
          = DatabaseStorage.getPaginatedPosts s page limit)
    ∧ (DatabaseStorage.getAllTags s).Perm (MemStorage.getAllTags s)
    ∧ (∀ id, MemStorage.getTagById s id = DatabaseStorage.getTagById s id)
    ∧ (∀ sl, MemStorage.getTagBySlug s sl = DatabaseStorage.getTagBySlug s sl)
    ∧ (∀ it : InsertTag, (∀ t ∈ s.tags, t.name ≠ it.name ∧ t.slug ≠ it.slug) →
        DatabaseStorage.createTag s it = .ok (MemStorage.createTag s it))
    ∧ (PairsNodup s → ∀ tagId,
        (DatabaseStorage.getPostsByTagId s tagId).Perm (MemStorage.getPostsByTagId s tagId))
    ∧ (PairsNodup s → ∀ sl,
        (DatabaseStorage.getPostsByTagSlug s sl).Perm (MemStorage.getPostsByTagSlug s sl))
    ∧ (PairsNodup s → ∀ postId,
        (DatabaseStorage.getTagsByPostId s postId).Perm (MemStorage.getTagsByPostId s postId))
    ∧ (∀ ipt : InsertPostTag, (∃ p ∈ s.posts, p.id = ipt.postId) →
        (∃ t ∈ s.tags, t.id = ipt.tagId) →
        DatabaseStorage.addTagToPost s ipt = .ok (MemStorage.addTagToPost s ipt))
    ∧ (PairsNodup s → ∀ p t,
        MemStorage.removeTagFromPost s p t = DatabaseStorage.removeTagFromPost s p t)
    ∧ (∀ e now, (∀ b ∈ s.subscribers, b.email ≠ e) →
        DatabaseStorage.createSubscriber s e now = .ok (MemStorage.createSubscriber s e now))
    ∧ (∀ e, MemStorage.getSubscriberByEmail s e = DatabaseStorage.getSubscriberByEmail s e)
    ∧ (DatabaseStorage.getAllSubscribers s).Perm (MemStorage.getAllSubscribers s) := by
  obtain ⟨hun, hpn, htn, hptn, hsn, hcu, hcp, hct, hcpt, hcs⟩ := hwf
  have hbyTagId : PairsNodup s → ∀ tagId,
      (DatabaseStorage.getPostsByTagId s tagId).Perm (MemStorage.getPostsByTagId s tagId) := by
    intro hpairs tagId
    have hbase := filterMap_find_perm_rows s.posts Post.id
      (s.postTags.filter (fun pt => pt.tagId == tagId)) (fun pt => pt.postId)
      hpn (nodup_postIds_of_pairsNodup s.postTags tagId hpairs)
    exact ((perm_sortPostsDesc _).trans hbase).trans (perm_sortPostsDesc _).symm
  refine ⟨fun _ => rfl, fun _ => rfl, ?_, rfl, fun _ => rfl, fun _ => rfl, ?_, ?_, ?_,
    featured_eq s, fun page limit hp => paginated_eq s page limit hp,
    List.Perm.refl _, fun _ => rfl, fun _ => rfl, ?_, hbyTagId, ?_, ?_, ?_, ?_, ?_,
    fun _ => rfl, List.Perm.refl _⟩
  · -- createUser
    intro iu h
    have hany : ¬(s.users.any (fun u => u.username == iu.username) = true) := by
      rw [Bool.not_eq_true, List.any_eq_false]
      intro u hu
      simpa using h u hu
    simp only [DatabaseStorage.createUser, if_neg hany, MemStorage.createUser]
    rw [mapSet_append User.id (mkUser s.currentUserId iu) s.users
      fun x hx => Nat.ne_of_lt (hcu x hx)]
  · -- createPost
    intro ip h hfk
    have hany : ¬(s.posts.any (fun p => p.slug == ip.slug) = true) := by
      rw [Bool.not_eq_true, List.any_eq_false]
      intro p hp2
      simpa using h p hp2
    have hok : DatabaseStorage.authorOk s ip.authorId = true :=
      (authorOk_iff s ip.authorId).mpr hfk
    simp only [DatabaseStorage.createPost, MemStorage.createPost]
    rw [if_neg hany, if_pos hok,
      mapSet_append Post.id (mkPost s.currentPostId ip) s.posts
        fun x hx => Nat.ne_of_lt (hcp x hx)]
  · -- updatePost
    intro id u hcond
    simp only [DatabaseStorage.updatePost, MemStorage.updatePost,
      MemStorage.getPostById, mapGet]
    rcases hfind : s.posts.find? (fun p => p.id == id) with _ | p0
    · simp only [hfind]
    · simp only [hfind]
      have hp0mem : p0 ∈ s.posts := List.mem_of_find?_eq_some hfind
      have hp0id : p0.id = id := by simpa using List.find?_some hfind
      have hany : ¬(s.posts.any
          (fun q => q.id != id && q.slug == (applyUpdate p0 u).slug) = true) := by
        rw [Bool.not_eq_true, List.any_eq_false]
        intro q hq
        by_cases hqid : q.id = id
        · simp [hqid]
        · simp [hqid, (hcond p0 hfind).1 q hq hqid]
      have hfk : ((applyUpdate p0 u).authorId == p0.authorId
          || DatabaseStorage.authorOk s (applyUpdate p0 u).authorId) = true := by
        rcases (hcond p0 hfind).2 with heq | hfa
        · simp [heq]
        · have hok := (authorOk_iff s (applyUpdate p0 u).authorId).mpr hfa
          simp [hok]
      rw [if_neg hany, if_pos hfk]
      have hrepl := mapSet_eq_map_replace Post.id (applyUpdate p0 u) s.posts p0
        hp0mem rfl hpn
      have hlam : (fun q : Post => if q.id == (applyUpdate p0 u).id
            then applyUpdate p0 u else q)
          = (fun q : Post => if q.id == id then applyUpdate p0 u else q) := by
        funext q
        rw [show (applyUpdate p0 u).id = id from hp0id]
      rw [hrepl, hlam]
  · -- deletePost
    intro id hnopt
    have hptfix : s.postTags.filter (fun pt => pt.postId != id) = s.postTags := by
      rw [List.filter_eq_self]
      intro pt hpt
      simpa using hnopt pt hpt
    by_cases hex : ∃ e ∈ s.posts, e.id = id
    · obtain ⟨e, he, heid⟩ := hex
      have hsel : (e.id == id) = true := by simpa using heid
      have huniq : ∀ x ∈ s.posts, (x.id == id) = true → x = e := by
        intro x hx hxid
        refine List.inj_on_of_nodup_map hpn hx he ?_
        have : x.id = id := by simpa using hxid
        rw [this, heid]
      have hdel := mapDelete_eq_filter Post.id (fun q => q.id == id) s.posts e
        he hsel hpn huniq
      rw [heid] at hdel
      have hany : s.posts.any (fun p => p.id == id) = true :=
        List.any_eq_true.mpr ⟨e, he, hsel⟩
      simp only [MemStorage.deletePost, DatabaseStorage.deletePost, hdel, hany,
        hptfix]
      rfl
    · push_neg at hex
      have hnomatch : ∀ x ∈ s.posts, x.id ≠ id := hex
      have hdel := mapDelete_of_no_match Post.id id s.posts hnomatch
      have hany : s.posts.any (fun p => p.id == id) = false := by
        rw [List.any_eq_false]
        intro p hp2
        simpa using hnomatch p hp2
      have hpfix : s.posts.filter (fun p => p.id != id) = s.posts := by
        rw [List.filter_eq_self]
        intro p hp2
        simpa using hnomatch p hp2
      simp only [MemStorage.deletePost, DatabaseStorage.deletePost, hdel, hany,
        hptfix, hpfix]
  · -- createTag
    intro it h
    have hany : ¬(s.tags.any (fun t => t.name == it.name || t.slug == it.slug) = true) := by
      rw [Bool.not_eq_true, List.any_eq_false]
      intro t ht
      have := h t ht
      simp only [Bool.or_eq_true, beq_iff_eq]
      push_neg
      exact this
    simp only [DatabaseStorage.createTag, if_neg hany, MemStorage.createTag]
    rw [mapSet_append Tag.id (mkTag s.currentTagId it) s.tags
      fun x hx => Nat.ne_of_lt (hct x hx)]
  · -- getPostsByTagSlug
    intro hpairs sl
    simp only [MemStorage.getPostsByTagSlug, DatabaseStorage.getPostsByTagSlug,
      MemStorage.getTagBySlug, DatabaseStorage.getTagBySlug]
    rcases hfind2 : s.tags.find? (fun t => t.slug == sl) with _ | tg
    · rw [hfind2]
    · rw [hfind2]
      exact hbyTagId hpairs tg.id
  · -- getTagsByPostId
    intro hpairs postId
    exact filterMap_find_perm_rows s.tags Tag.id
      (s.postTags.filter (fun pt => pt.postId == postId)) (fun pt => pt.tagId)
      htn (nodup_tagIds_of_pairsNodup s.postTags postId hpairs)
  · -- addTagToPost
    intro ipt hpex htex
    obtain ⟨p, hpmem, hpid⟩ := hpex
    obtain ⟨t, htmem, htid⟩ := htex
    have hanyp : s.posts.any (fun q => q.id == ipt.postId) = true :=
      List.any_eq_true.mpr ⟨p, hpmem, by simpa using hpid⟩
    have hanyt : s.tags.any (fun q => q.id == ipt.tagId) = true :=
      List.any_eq_true.mpr ⟨t, htmem, by simpa using htid⟩
    simp only [DatabaseStorage.addTagToPost, hanyp, hanyt, if_true,
      MemStorage.addTagToPost]
    rw [mapSet_append PostTag.id (mkPostTag s.currentPostTagId ipt) s.postTags
      fun x hx => Nat.ne_of_lt (hcpt x hx)]
  · -- removeTagFromPost
    intro hpairs p t
    rcases hfind : s.postTags.find? (fun pt => pt.postId == p && pt.tagId == t) with _ | e
    · have hnone := List.find?_eq_none.mp hfind
      have hany : s.postTags.any (fun pt => pt.postId == p && pt.tagId == t) = false := by
        rw [List.any_eq_false]
        exact hnone
      have hfix : s.postTags.filter (fun pt => !(pt.postId == p && pt.tagId == t))
          = s.postTags := by
        rw [List.filter_eq_self]
        intro pt hpt
        have h3 := hnone pt hpt
        simp at h3 ⊢
        tauto
      simp only [MemStorage.removeTagFromPost, hfind,
        DatabaseStorage.removeTagFromPost, hany, hfix]
    · have hsel0 := List.find?_some hfind
      have hsel : (e.postId == p && e.tagId == t) = true := hsel0
      have hmem : e ∈ s.postTags := List.mem_of_find?_eq_some hfind
      have huniq : ∀ x ∈ s.postTags,
          (x.postId == p && x.tagId == t) = true → x = e := by
        intro x hx hxsel
        refine List.inj_on_of_nodup_map hpairs hx hmem ?_
        have h1 : x.postId = p ∧ x.tagId = t := by simpa using hxsel
        have h2 : e.postId = p ∧ e.tagId = t := by simpa using hsel
        rw [h1.1, h1.2, h2.1, h2.2]
      have hdel := mapDelete_eq_filter PostTag.id
        (fun x => x.postId == p && x.tagId == t) s.postTags e hmem hsel hptn huniq
      have hany : s.postTags.any (fun pt => pt.postId == p && pt.tagId == t) = true :=
        List.any_eq_true.mpr ⟨e, hmem, hsel⟩
      simp only [MemStorage.removeTagFromPost, hfind, hdel,
        DatabaseStorage.removeTagFromPost, hany]
  · -- createSubscriber
    intro e now h
    have hany : ¬(s.subscribers.any (fun b => b.email == e) = true) := by
      rw [Bool.not_eq_true, List.any_eq_false]
      intro b hb
      simpa using h b hb
    simp only [DatabaseStorage.createSubscriber, if_neg hany,
      MemStorage.createSubscriber]
    rw [mapSet_append Subscriber.id
      { id := s.currentSubscriberId, email := e, createdAt := now } s.subscribers
      fun x hx => Nat.ne_of_lt (hcs x hx)]

/-- Witness for the amended C3 on a concrete well-formed store. -/
theorem C3_storage_refinement_witness :
    MemStorage.getAllPosts exStore1 = DatabaseStorage.getAllPosts exStore1
    ∧ MemStorage.getPaginatedPosts exStore1 1 2
        = DatabaseStorage.getPaginatedPosts exStore1 1 2
    ∧ (DatabaseStorage.getTagsByPostId exStore1 1).Perm
        (MemStorage.getTagsByPostId exStore1 1)
    ∧ DatabaseStorage.createPost exStore1 freshInsert
        = .ok (MemStorage.createPost exStore1 freshInsert)
    ∧ DatabaseStorage.createSubscriber exStore1 "a@b.com" 3
        = .ok (MemStorage.createSubscriber exStore1 "a@b.com" 3) := by
  have h := C3_storage_refinement exStore1 (by decide)
  exact ⟨h.2.2.2.1,
    h.2.2.2.2.2.2.2.2.2.2.1 1 2 (by omega),
    h.2.2.2.2.2.2.2.2.2.2.2.2.2.2.2.2.2.1 (by decide) 1,
    h.2.2.2.2.2.2.1 freshInsert (by decide)
      (fun a ha => by simp [freshInsert] at ha),
    h.2.2.2.2.2.2.2.2.2.2.2.2.2.2.2.2.2.2.2.2.1 "a@b.com" 3 (by decide)⟩

end Blog
